import Mathlib

/-!
Shallow embedding of the chatterbox-tts-api streaming speech pipeline
(`app/api/endpoints/speech.py` and the header parser of
`StreamingExampleUsingPyAudio.py`), together with theorems settling the
frozen claims about the natural-language specification.

Audio samples are modelled as exact rationals; a numpy 2-D float array of
shape [channels, samples] is a list of channel rows.
-/

namespace Chatterbox

/-- A numpy 2-D array `[channels, samples]`, one list of samples per channel. -/
abbrev NpArr := List (List ℚ)

/-- numpy `a.shape[1]`: the (uniform) number of samples per channel.
For a rectangular array this is the length of any row. -/
def shape1 (a : NpArr) : ℕ := (a.head?.getD []).length

/-- Rectangularity: every channel row has the common length `shape1 a`,
as numpy arrays guarantee by construction. -/
def Rect (a : NpArr) : Prop := ∀ r ∈ a, r.length = shape1 a

instance (a : NpArr) : Decidable (Rect a) := by unfold Rect; infer_instance

/-- Python `np.clip(x, -1, 1)` on one sample: values below `-1` become `-1`,
values above `1` become `1`, all others pass unchanged. -/
def clip1 (x : ℚ) : ℚ := if x < -1 then -1 else if 1 < x then 1 else x

/-- Python `np.clip(a, -1, 1)` on a whole array (the value part of
`np.clip(chunk_to_stream, -1, 1).astype(np.float32).tobytes()`). -/
def clipArr (a : NpArr) : NpArr := a.map (List.map clip1)

/-- Byte length of an emitted region: 4 bytes per sample
(`astype(np.float32).tobytes()`). -/
def regionByteLen (a : NpArr) : ℕ := 4 * (a.map List.length).sum

/-- Weights `np.linspace(1, 0, N, endpoint=False)`: the fade-out weights `1 - t/N`. -/
def fade_out (N : ℕ) : List ℚ :=
  (List.range N).map (fun t : ℕ => 1 - (t : ℚ) / (N : ℚ))

/-- Weights `np.linspace(0, 1, N, endpoint=False)`: the fade-in weights `t/N`. -/
def fade_in (N : ℕ) : List ℚ :=
  (List.range N).map (fun t : ℕ => (t : ℚ) / (N : ℚ))

/-- One channel of the blended region:
`prev_tail * fade_out + next_head * fade_in` (elementwise). -/
def blendRow (N : ℕ) (prevTail nextHead : List ℚ) : List ℚ :=
  List.zipWith (· + ·)
    (List.zipWith (· * ·) prevTail (fade_out N))
    (List.zipWith (· * ·) nextHead (fade_in N))

/-- Function `crossfade_pcm(prev_pcm, next_pcm, fade_samples)` from
`app/api/endpoints/speech.py`: skip (returning `next_pcm` unchanged) when
there is no previous buffer or either buffer has fewer than `fade_samples`
samples; otherwise return the linearly blended overlap region together with
`next_pcm` with its first `fade_samples` samples trimmed off. -/
def crossfade_pcm (prev_pcm : Option NpArr) (next_pcm : NpArr) (fade_samples : ℕ) :
    Option NpArr × NpArr :=
  match prev_pcm with
  | none => (none, next_pcm)
  | some p =>
    if shape1 p < fade_samples ∨ shape1 next_pcm < fade_samples then
      (none, next_pcm)
    else
      (some (List.zipWith
          (fun pr nr =>
            blendRow fade_samples (pr.drop (pr.length - fade_samples)) (nr.take fade_samples))
          p next_pcm),
        next_pcm.map (fun r => r.drop fade_samples))

/-- Slice `np_pcm[:, :-fade_samples] if np_pcm.shape[1] > fade_samples else np_pcm`:
the per-iteration tail hold-back applied to the first chunk and to every
trimmed chunk before emission. -/
def holdBack (a : NpArr) (N : ℕ) : NpArr :=
  if N < shape1 a then a.map (fun r => r.take (r.length - N)) else a

/-- The regions emitted in one loop iteration with a previous buffer present:
the clipped blended region (when the crossfade applies), then the clipped
trimmed chunk with its own tail held back. -/
def stepEmits (prev c : NpArr) (N : ℕ) : List NpArr :=
  match crossfade_pcm (some prev) c N with
  | (some cross, trimmed) => [clipArr cross, clipArr (holdBack trimmed N)]
  | (none, trimmed) => [clipArr (holdBack trimmed N)]

/-- The regions emitted for the remaining chunks, given the previous
(untrimmed) buffer `prev`, mirroring the loop body for `prev_pcm is not None`. -/
def streamTail (prev : NpArr) (N : ℕ) : List NpArr → List NpArr
  | [] => []
  | c :: rest => stepEmits prev c N ++ streamTail c N rest

/-- The full sequence of PCM regions emitted by the streaming loop of
`generate_speech_streaming` for the synthesized buffers `chunks` with
crossfade length `N` (header excluded). -/
def streamEmits (N : ℕ) : List NpArr → List NpArr
  | [] => []
  | c :: rest => clipArr (holdBack c N) :: streamTail c N rest

/-- Wrap one channel row as a single-channel array (the streaming path has
`channels = 1`). -/
def chan1 (r : List ℚ) : NpArr := [r]

/-- A clipped channel row. -/
def clipRow (r : List ℚ) : List ℚ := r.map clip1

/-- The final `N` samples of a row (numpy `r[-N:]` for `1 ≤ N ≤ len`). -/
def tailN (N : ℕ) (r : List ℚ) : List ℚ := r.drop (r.length - N)

/-- Claim-side description of the regions the pipeline emits for each
boundary between a previous buffer `p` and the following buffers: the
blended overlap, then the next buffer minus its blended head and minus its
own held-back tail.  Stated from the specification's words, to be compared
with `streamTail`. -/
def boundaryRegionsSpec (N : ℕ) : List ℚ → List (List ℚ) → List NpArr
  | _, [] => []
  | p, c :: rest =>
      [clipRow (blendRow N (tailN N p) (c.take N))]
        :: [clipRow ((c.drop N).take (c.length - 2 * N))]
        :: boundaryRegionsSpec N c rest

/-- Total number of samples in a sequence of emitted regions. -/
def emittedSampleCount (regs : List NpArr) : ℕ :=
  (regs.map fun a => (a.map List.length).sum).sum

/-! ### WAV header bytes and the client-side parser -/

/-- Little-endian byte encoding of `n` into `k` bytes. -/
def bytesLE : ℕ → ℕ → List ℕ
  | 0, _ => []
  | k + 1, n => n % 256 :: bytesLE k (n / 256)

/-- Little-endian decoding, `int.from_bytes(bs, "little")`. -/
def decodeLE : List ℕ → ℕ
  | [] => 0
  | b :: bs => b + 256 * decodeLE bs

/-- Python `int.from_bytes(header_bytes[off:off+len], "little")`. -/
def readLE (bs : List ℕ) (off len : ℕ) : ℕ := decodeLE ((bs.drop off).take len)

/-- Modelled from the spec: the 44-byte header that `generate_speech_streaming`
yields first.  The code obtains these bytes from `torchaudio`'s WAV writer
applied to one second of silence (code not under `src/`); the spec describes
them as the standard 44-byte RIFF/WAVE/fmt/data header with format tag 3 for
32-bit float, byte-rate and block-align consistent with the parameters, and
placeholder data/file lengths taken from the one-second placeholder. -/
def wavHeader44 (channels sampleRate bitsPerSample dataLen : ℕ) : List ℕ :=
  [82, 73, 70, 70] ++ bytesLE 4 (36 + dataLen) ++ [87, 65, 86, 69]
    ++ [102, 109, 116, 32] ++ bytesLE 4 16 ++ bytesLE 2 3
    ++ bytesLE 2 channels ++ bytesLE 4 sampleRate
    ++ bytesLE 4 (sampleRate * (channels * bitsPerSample / 8))
    ++ bytesLE 2 (channels * bitsPerSample / 8) ++ bytesLE 2 bitsPerSample
    ++ [100, 97, 116, 97] ++ bytesLE 4 dataLen

/-- Function `parse_wav_header` from `StreamingExampleUsingPyAudio.py`: on at least
44 bytes, returns `(channels, sample_rate, bits_per_sample, audio_format)`
read little-endian at offsets 22, 24, 34 and 20; fewer than 44 bytes raise. -/
def parse_wav_header (header_bytes : List ℕ) : Option (ℕ × ℕ × ℕ × ℕ) :=
  if header_bytes.length < 44 then none
  else some (readLE header_bytes 22 2, readLE header_bytes 24 4,
    readLE header_bytes 34 2, readLE header_bytes 20 2)

/-! ### Request lifecycle, status tracking and memory discipline -/

/-- The `TTSStatus` values recorded through `update_tts_status`. -/
inductive TTSStatus where
  | INITIALIZING
  | PROCESSING_TEXT
  | CHUNKING
  | GENERATING
  | CONCATENATING
  | FINALIZING
  | COMPLETED
  | ERROR
deriving DecidableEq, Repr

/-- The configuration values the pipeline reads from `Config`. -/
structure Config where
  MAX_TOTAL_LENGTH : ℕ
  MEMORY_CLEANUP_INTERVAL : ℕ
  ENABLE_MEMORY_MONITORING : Bool

/-- Observable resource events of one request: a synthesis engine call
(`model.generate`), the mid-loop `gc.collect()` pass, and the bulk
`cleanup_memory()` of the `finally` block. -/
inductive Ev where
  | engineCall
  | gcCollect
  | cleanupMemory
deriving DecidableEq, Repr

/-- Stage position of each status in the linear lifecycle. -/
def stageIdx : TTSStatus → ℕ
  | .INITIALIZING => 0
  | .PROCESSING_TEXT => 1
  | .CHUNKING => 2
  | .GENERATING => 3
  | .CONCATENATING => 4
  | .FINALIZING => 5
  | .COMPLETED => 6
  | .ERROR => 7

/-- Statuses `Completed` and `Error` are terminal. -/
def Terminal (s : TTSStatus) : Prop := s = .COMPLETED ∨ s = .ERROR

instance (s : TTSStatus) : Decidable (Terminal s) :=
  inferInstanceAs (Decidable (s = TTSStatus.COMPLETED ∨ s = TTSStatus.ERROR))

/-- One admissible recorded transition: the earlier status is not terminal,
and the later one is either `Error` or at the same or a later linear stage. -/
def stepOk (a b : TTSStatus) : Prop :=
  ¬Terminal a ∧ (b = .ERROR ∨ stageIdx a ≤ stageIdx b)

instance (a b : TTSStatus) : Decidable (stepOk a b) :=
  inferInstanceAs (Decidable (¬Terminal a ∧ (b = TTSStatus.ERROR ∨ stageIdx a ≤ stageIdx b)))

/-- A status trace follows the linear state machine: forward-only with
`Error` reachable from anywhere, and nothing recorded after a terminal
status. -/
def ValidTrace (tr : List TTSStatus) : Prop := tr.Chain' stepOk

/-- Count `fade_samples = int(sample_rate * fade_ms / 1000)` with `fade_ms = 10`. -/
def fadeSamplesOf (sr : ℕ) : ℕ := sr * 10 / 1000

/-- The streaming generation loop over the per-segment engine results
(`Except.error` marks the engine raising on that segment): returns the
emitted PCM regions, the resource events in order, and whether the loop
completed.  The index `i` drives the every-3-chunks `gc.collect()`. -/
def streamLoop (N : ℕ) : Option NpArr → ℕ → List (Except Unit NpArr) →
    List NpArr × List Ev × Bool
  | _, _, [] => ([], [], true)
  | _, _, .error _ :: _ => ([], [Ev.engineCall], false)
  | prev, i, .ok c :: rest =>
    let ems := match prev with
      | none => [clipArr (holdBack c N)]
      | some p => stepEmits p c N
    let gcEvs := if 0 < i ∧ i % 3 = 0 then [Ev.gcCollect] else []
    let res := streamLoop N (some c) (i + 1) rest
    (ems ++ res.1, Ev.engineCall :: (gcEvs ++ res.2.1), res.2.2)

/-- Observable outcome of one call to `generate_speech_streaming`. -/
structure StreamRun where
  trace : List TTSStatus
  headerBytes : List ℕ
  regions : List NpArr
  events : List Ev
  cleanupCalled : Bool
  httpError : Option ℕ
  counter : ℕ

/-- Function `generate_speech_streaming` as a function of the configuration, model
availability, input text length, model sample rate, per-segment engine
results and the request counter before the call.  Mirrors the source's
control flow: counter increment, model check (500), memory-monitoring
status, text-length check (400), chunking and generation statuses, header
emission, the crossfading loop, completion or error status, and the
`finally` block that runs `cleanup_memory()` every
`MEMORY_CLEANUP_INTERVAL` requests — only reached when the `try` block was
entered. -/
def runStreamingRequest (cfg : Config) (modelLoaded : Bool) (textLen sr : ℕ)
    (segs : List (Except Unit NpArr)) (counter0 : ℕ) : StreamRun :=
  let counter := counter0 + 1
  if ¬modelLoaded then
    { trace := [.INITIALIZING, .ERROR], headerBytes := [], regions := [],
      events := [], cleanupCalled := false, httpError := some 500, counter }
  else
    let pre := [TTSStatus.INITIALIZING]
      ++ (if cfg.ENABLE_MEMORY_MONITORING then [TTSStatus.INITIALIZING] else [])
      ++ [TTSStatus.PROCESSING_TEXT]
    if cfg.MAX_TOTAL_LENGTH < textLen then
      { trace := pre ++ [.ERROR], headerBytes := [], regions := [],
        events := [], cleanupCalled := false, httpError := some 400, counter }
    else
      let res := streamLoop (fadeSamplesOf sr) none 0 segs
      let cleanup := counter % cfg.MEMORY_CLEANUP_INTERVAL == 0
      { trace := pre ++ [.CHUNKING, .GENERATING]
          ++ (if res.2.2 then [TTSStatus.COMPLETED] else [TTSStatus.ERROR]),
        headerBytes := wavHeader44 1 sr 32 (sr * 4),
        regions := res.1,
        events := res.2.1 ++ (if cleanup then [Ev.cleanupMemory] else []),
        cleanupCalled := cleanup,
        httpError := if res.2.2 then none else some 500,
        counter }

/-- The non-streaming generation loop of `generate_speech_internal` over
per-segment engine results: the `GENERATING` status recorded before
each call, the resource events, and whether the loop completed. -/
def internalLoop : ℕ → List (Except Unit Unit) → List TTSStatus × List Ev × Bool
  | _, [] => ([], [], true)
  | _, .error _ :: _ => ([TTSStatus.GENERATING], [Ev.engineCall], false)
  | i, .ok _ :: rest =>
    let gcEvs := if 0 < i ∧ i % 3 = 0 then [Ev.gcCollect] else []
    let res := internalLoop (i + 1) rest
    (TTSStatus.GENERATING :: res.1, Ev.engineCall :: (gcEvs ++ res.2.1), res.2.2)

/-- Observable outcome of one call to `generate_speech_internal`. -/
structure InternalRun where
  trace : List TTSStatus
  producedBuffer : Bool
  events : List Ev
  cleanupCalled : Bool
  httpError : Option ℕ
  counter : ℕ

/-- Function `generate_speech_internal` as a function of the configuration, model
availability, input text length, per-segment engine results and the prior
request counter.  Mirrors the source: counter increment, model check (500),
memory-monitoring status, text-length check (400), chunking and generation
statuses, the generation loop, concatenation (only for more than one
chunk), finalization and completion — or the error path — and the `finally`
cleanup, reached only when the `try` block was entered.  An empty chunk
list makes `audio_chunks[0]` raise, which the handler turns into an error
status and a 500. -/
def runInternalRequest (cfg : Config) (modelLoaded : Bool) (textLen : ℕ)
    (segs : List (Except Unit Unit)) (counter0 : ℕ) : InternalRun :=
  let counter := counter0 + 1
  if ¬modelLoaded then
    { trace := [.INITIALIZING, .ERROR], producedBuffer := false,
      events := [], cleanupCalled := false, httpError := some 500, counter }
  else
    let pre := [TTSStatus.INITIALIZING]
      ++ (if cfg.ENABLE_MEMORY_MONITORING then [TTSStatus.INITIALIZING] else [])
      ++ [TTSStatus.PROCESSING_TEXT]
    if cfg.MAX_TOTAL_LENGTH < textLen then
      { trace := pre ++ [.ERROR], producedBuffer := false,
        events := [], cleanupCalled := false, httpError := some 400, counter }
    else
      let res := internalLoop 0 segs
      let cleanup := counter % cfg.MEMORY_CLEANUP_INTERVAL == 0
      let cleanupEvs := if cleanup then [Ev.cleanupMemory] else []
      let pre := pre ++ [TTSStatus.CHUNKING, TTSStatus.GENERATING] ++ res.1
      if res.2.2 then
        if segs.isEmpty then
          { trace := pre ++ [.ERROR], producedBuffer := false,
            events := res.2.1 ++ cleanupEvs, cleanupCalled := cleanup,
            httpError := some 500, counter }
        else
          { trace := pre
              ++ (if 1 < segs.length then [TTSStatus.CONCATENATING] else [])
              ++ [TTSStatus.FINALIZING, TTSStatus.COMPLETED],
            producedBuffer := true,
            events := res.2.1 ++ cleanupEvs, cleanupCalled := cleanup,
            httpError := none, counter }
      else
        { trace := pre ++ [.ERROR], producedBuffer := false,
          events := res.2.1 ++ cleanupEvs, cleanupCalled := cleanup,
          httpError := some 500, counter }

/-! ### Uploaded voice file validation -/

/-- The fields of a FastAPI `UploadFile` that `validate_audio_file` reads:
`filename` (absent or a string) and the optional reported `size`
(`None` reads as absent). -/
structure UploadFile where
  filename : Option String
  size : Option ℕ

/-- Set `SUPPORTED_AUDIO_FORMATS` from `speech.py`. -/
def SUPPORTED_AUDIO_FORMATS : List String := [".mp3", ".wav", ".flac", ".m4a", ".ogg"]

/-- Python `s.rfind(c)`: index of the last occurrence, if any. -/
def rfindIdx (c : Char) (s : List Char) : Option ℕ :=
  ((List.range s.length).filter fun i => s.getD i c == c).getLast?

/-- The extension component of `os.path.splitext` (posix): the suffix from
the last dot, provided that dot lies after the last path separator and is
preceded, within the base name, by at least one non-dot character. -/
def splitextExt (s : List Char) : List Char :=
  match rfindIdx '.' s with
  | none => []
  | some d =>
    let sepIdx := rfindIdx '/' s
    let fStart := match sepIdx with
      | none => 0
      | some sp => sp + 1
    let sepOk := match sepIdx with
      | none => true
      | some sp => decide (sp < d)
    if sepOk && (List.range' fStart (d - fStart)).any (fun i => !(s.getD i '.' == '.'))
    then s.drop d
    else []

/-- Function `validate_audio_file` from `speech.py`: HTTP 400 when no filename is
given, when the lower-cased filename's extension is not a supported audio
format, or when the reported size exceeds `25 * 1024 * 1024` bytes;
otherwise the file passes and nothing is changed. -/
def validate_audio_file (file : UploadFile) : Except ℕ Unit :=
  match file.filename with
  | none => .error 400
  | some name =>
    if name = "" then .error 400
    else
      let ext := String.mk (splitextExt (name.toList.map Char.toLower))
      if ext ∉ SUPPORTED_AUDIO_FORMATS then .error 400
      else
        match file.size with
        | some sz => if 25 * 1024 * 1024 < sz then .error 400 else .ok ()
        | none => .ok ()

/-! ## Helper lemmas -/

theorem getD_zipWith {α β γ : Type} (f : α → β → γ) (l1 : List α) (l2 : List β)
    (i : ℕ) (d1 : α) (d2 : β) (d3 : γ) (h1 : i < l1.length) (h2 : i < l2.length) :
    (List.zipWith f l1 l2).getD i d3 = f (l1.getD i d1) (l2.getD i d2) := by
  have hz : i < (List.zipWith f l1 l2).length := by
    rw [List.length_zipWith]; omega
  rw [List.getD_eq_getElem _ _ hz, List.getD_eq_getElem _ _ h1,
    List.getD_eq_getElem _ _ h2, List.getElem_zipWith]

theorem getD_map {α β : Type} (f : α → β) (l : List α) (i : ℕ) (d1 : α) (d2 : β)
    (h : i < l.length) : (l.map f).getD i d2 = f (l.getD i d1) := by
  have hm : i < (l.map f).length := by simpa using h
  rw [List.getD_eq_getElem _ _ hm, List.getD_eq_getElem _ _ h, List.getElem_map]

theorem getD_drop {α : Type} (l : List α) (m i : ℕ) (d : α) (h : m + i < l.length) :
    (l.drop m).getD i d = l.getD (m + i) d := by
  have hd : i < (l.drop m).length := by rw [List.length_drop]; omega
  rw [List.getD_eq_getElem _ _ hd, List.getD_eq_getElem _ _ h]
  exact (List.getElem_drop' l h).symm

theorem getD_take {α : Type} (l : List α) (m i : ℕ) (d : α)
    (h1 : i < m) (h2 : i < l.length) : (l.take m).getD i d = l.getD i d := by
  have ht : i < (l.take m).length := by rw [List.length_take]; omega
  rw [List.getD_eq_getElem _ _ ht, List.getD_eq_getElem _ _ h2]
  exact (List.getElem_take' l h2 h1).symm

theorem getD_range (n i : ℕ) (h : i < n) : (List.range n).getD i 0 = i := by
  have hr : i < (List.range n).length := by simpa using h
  rw [List.getD_eq_getElem _ _ hr, List.getElem_range]

theorem fade_out_getD (N t : ℕ) (h : t < N) :
    (fade_out N).getD t 0 = 1 - (t : ℚ) / N := by
  unfold fade_out
  rw [getD_map (fun t : ℕ => 1 - (t : ℚ) / N) (List.range N) t 0 0
      (by simpa using h),
    getD_range _ _ h]

theorem fade_in_getD (N t : ℕ) (h : t < N) :
    (fade_in N).getD t 0 = (t : ℚ) / N := by
  unfold fade_in
  rw [getD_map (fun t : ℕ => (t : ℚ) / N) (List.range N) t 0 0
      (by simpa using h),
    getD_range _ _ h]

theorem fade_out_length (N : ℕ) : (fade_out N).length = N := by
  rw [fade_out, List.length_map, List.length_range]

theorem fade_in_length (N : ℕ) : (fade_in N).length = N := by
  rw [fade_in, List.length_map, List.length_range]

theorem blendRow_length (N : ℕ) (a b : List ℚ) :
    (blendRow N a b).length = min (min a.length N) (min b.length N) := by
  simp [blendRow, fade_out_length, fade_in_length]

theorem blendRow_getD (N : ℕ) (a b : List ℚ) (t : ℕ)
    (ha : t < a.length) (hb : t < b.length) (ht : t < N) :
    (blendRow N a b).getD t 0 =
      a.getD t 0 * (1 - (t : ℚ) / N) + b.getD t 0 * ((t : ℚ) / N) := by
  unfold blendRow
  rw [getD_zipWith _ _ _ _ 0 0 _
      (by rw [List.length_zipWith, fade_out_length]; omega)
      (by rw [List.length_zipWith, fade_in_length]; omega),
    getD_zipWith _ _ _ _ 0 0 _ ha (by rw [fade_out_length]; omega),
    getD_zipWith _ _ _ _ 0 0 _ hb (by rw [fade_in_length]; omega),
    fade_out_getD _ _ ht, fade_in_getD _ _ ht]

theorem clip1_le_one (x : ℚ) : clip1 x ≤ 1 := by
  unfold clip1
  split_ifs <;> linarith

theorem neg_one_le_clip1 (x : ℚ) : -1 ≤ clip1 x := by
  unfold clip1
  split_ifs <;> linarith

theorem shape1_chan1 (r : List ℚ) : shape1 (chan1 r) = r.length := by
  simp [shape1, chan1]

theorem sum_const_of_mem (l : List ℕ) (N : ℕ) (h : ∀ x ∈ l, x = N) :
    l.sum = l.length * N := by
  induction l with
  | nil => simp
  | cons a t ih =>
    have ha : a = N := h a (by simp)
    have ht : ∀ x ∈ t, x = N := fun x hx => h x (by simp [hx])
    simp [ha, ih ht, Nat.succ_mul, Nat.add_comm]

theorem sum_len_lower (rows : List (List ℚ)) (N : ℕ)
    (h : ∀ r ∈ rows, N ≤ r.length) :
    rows.length * N ≤ (rows.map List.length).sum := by
  induction rows with
  | nil => simp
  | cons a t ih =>
    have ha : N ≤ a.length := h a (by simp)
    have ht : ∀ r ∈ t, N ≤ r.length := fun r hr => h r (by simp [hr])
    have := ih ht
    simp only [List.map_cons, List.sum_cons, List.length_cons]
    calc (t.length + 1) * N = t.length * N + N := by ring
    _ ≤ (t.map List.length).sum + a.length := by omega
    _ = a.length + (t.map List.length).sum := by omega

/-! ## Crossfade basic lemmas -/

theorem crossfade_pcm_skip (p c : NpArr) (N : ℕ)
    (h : shape1 p < N ∨ shape1 c < N) :
    crossfade_pcm (some p) c N = (none, c) := by
  simp only [crossfade_pcm, if_pos h]

theorem crossfade_pcm_go (p c : NpArr) (N : ℕ)
    (hp : N ≤ shape1 p) (hc : N ≤ shape1 c) :
    crossfade_pcm (some p) c N =
      (some (List.zipWith
          (fun pr nr => blendRow N (pr.drop (pr.length - N)) (nr.take N)) p c),
        c.map (fun r => r.drop N)) := by
  have h : ¬(shape1 p < N ∨ shape1 c < N) := by omega
  simp only [crossfade_pcm, if_neg h]

/-! ## Streaming loop lemmas -/

theorem streamLoop_ok_completes (N : ℕ) :
    ∀ (chunks : List NpArr) (prev : Option NpArr) (i : ℕ),
      (streamLoop N prev i (chunks.map Except.ok)).2.2 = true := by
  intro chunks
  induction chunks with
  | nil => intro prev i; rfl
  | cons c rest ih =>
    intro prev i
    simp only [List.map_cons, streamLoop]
    exact ih (some c) (i + 1)

theorem streamLoop_regions (N : ℕ) :
    ∀ (chunks : List NpArr) (prev : Option NpArr) (i : ℕ),
      (streamLoop N prev i (chunks.map Except.ok)).1 =
        (match prev with
          | none => streamEmits N chunks
          | some p => streamTail p N chunks) := by
  intro chunks
  induction chunks with
  | nil =>
    intro prev i
    cases prev <;> rfl
  | cons c rest ih =>
    intro prev i
    simp only [List.map_cons, streamLoop]
    cases prev with
    | none => simp only [streamEmits, ih (some c) (i + 1), List.singleton_append]
    | some p => simp only [streamTail, ih (some c) (i + 1)]

theorem streamLoop_error_run (N : ℕ) (rest : List (Except Unit NpArr)) :
    ∀ (oks : List NpArr) (prev : Option NpArr) (i : ℕ),
      (streamLoop N prev i (oks.map Except.ok ++ Except.error () :: rest)).2.2 = false ∧
      (streamLoop N prev i (oks.map Except.ok ++ Except.error () :: rest)).1 =
        (streamLoop N prev i (oks.map Except.ok)).1 ∧
      ((streamLoop N prev i (oks.map Except.ok ++ Except.error () :: rest)).2.1).count
          Ev.engineCall = oks.length + 1 := by
  intro oks
  induction oks with
  | nil =>
    intro prev i
    refine ⟨rfl, rfl, ?_⟩
    simp [streamLoop]
  | cons c okt ih =>
    intro prev i
    obtain ⟨h1, h2, h3⟩ := ih (some c) (i + 1)
    refine ⟨?_, ?_, ?_⟩
    · simpa only [List.map_cons, List.cons_append, streamLoop] using h1
    · simp only [List.map_cons, List.cons_append, streamLoop, List.append_eq]
      rw [h2]
    · simp only [List.map_cons, List.cons_append, streamLoop, List.count_cons,
        List.count_append, h3, List.length_cons]
      by_cases hgc : 0 < i ∧ i % 3 = 0 <;> simp [hgc] <;> omega

theorem streamLoop_no_cleanup (N : ℕ) :
    ∀ (segs : List (Except Unit NpArr)) (prev : Option NpArr) (i : ℕ),
      Ev.cleanupMemory ∉ (streamLoop N prev i segs).2.1 := by
  intro segs
  induction segs with
  | nil => intro prev i; simp [streamLoop]
  | cons s rest ih =>
    intro prev i
    cases s with
    | error e => simp [streamLoop]
    | ok c =>
      have := ih (some c) (i + 1)
      simp only [streamLoop, List.mem_cons, List.mem_append]
      push_neg
      refine ⟨by simp, ?_, this⟩
      by_cases hgc : 0 < i ∧ i % 3 = 0 <;> simp [hgc]

theorem internalLoop_completes :
    ∀ (chunks : List Unit) (i : ℕ),
      (internalLoop i (chunks.map Except.ok)).2.2 = true := by
  intro chunks
  induction chunks with
  | nil => intro i; rfl
  | cons c rest ih =>
    intro i
    simp only [List.map_cons, internalLoop]
    exact ih (i + 1)

theorem internalLoop_statuses :
    ∀ (segs : List (Except Unit Unit)) (i : ℕ),
      ∀ s ∈ (internalLoop i segs).1, s = TTSStatus.GENERATING := by
  intro segs
  induction segs with
  | nil => intro i s hs; simp [internalLoop] at hs
  | cons a rest ih =>
    intro i s hs
    cases a with
    | error e =>
      simp only [internalLoop, List.mem_singleton] at hs
      exact hs
    | ok u =>
      simp only [internalLoop, List.mem_cons] at hs
      rcases hs with h | h
      · exact h
      · exact ih (i + 1) s h

theorem internalLoop_no_cleanup :
    ∀ (segs : List (Except Unit Unit)) (i : ℕ),
      Ev.cleanupMemory ∉ (internalLoop i segs).2.1 := by
  intro segs
  induction segs with
  | nil => intro i; simp [internalLoop]
  | cons s rest ih =>
    intro i
    cases s with
    | error e => simp [internalLoop]
    | ok u =>
      have := ih (i + 1)
      simp only [internalLoop, List.mem_cons, List.mem_append]
      push_neg
      refine ⟨by simp, ?_, this⟩
      by_cases hgc : 0 < i ∧ i % 3 = 0 <;> simp [hgc]

/-! ## Claim theorems -/

/-- C2: for consecutive rectangular buffers each with at least `N` samples
per channel, `crossfade_pcm` returns a blended region of exactly `N`
samples per channel with
`blended[t] = prev_tail[t] * (1 - t/N) + next_head[t] * (t/N)` for every
`t < N`, together with the next buffer with its first `N` samples trimmed
off; the loop emits the blended region and then the trimmed remainder, each
clamped to `[-1, 1]`, at 4 bytes (32-bit float) per sample. -/
theorem crossfade_blend_formula (p q : NpArr) (N : ℕ) (hN : 1 ≤ N)
    (hp : Rect p) (hc : Rect q) (hpc : p.length = q.length)
    (hpN : N ≤ shape1 p) (hcN : N ≤ shape1 q) :
    ∃ bl, crossfade_pcm (some p) q N = (some bl, q.map (fun r => r.drop N)) ∧
      bl.length = p.length ∧
      (∀ r ∈ bl, r.length = N) ∧
      (∀ i t, i < p.length → t < N →
        (bl.getD i []).getD t 0 =
          (p.getD i []).getD (shape1 p - N + t) 0 * (1 - (t : ℚ) / N)
            + (q.getD i []).getD t 0 * ((t : ℚ) / N)) ∧
      stepEmits p q N =
        [clipArr bl, clipArr (holdBack (q.map (fun r => r.drop N)) N)] ∧
      (∀ r ∈ clipArr bl, ∀ x ∈ r, -1 ≤ x ∧ x ≤ 1) ∧
      regionByteLen (clipArr bl) = 4 * (p.length * N) := by
  have hgo := crossfade_pcm_go p q N hpN hcN
  refine ⟨_, hgo, ?_, ?_, ?_, ?_, ?_, ?_⟩
  · rw [List.length_zipWith, hpc, Nat.min_self]
  · intro r hr
    rw [List.mem_iff_getElem] at hr
    obtain ⟨i, hi, hr⟩ := hr
    have hip : i < p.length := by
      rw [List.length_zipWith] at hi
      omega
    have hic : i < q.length := by omega
    subst hr
    rw [List.getElem_zipWith, blendRow_length]
    have hpl : p[i].length = shape1 p := hp _ (List.getElem_mem hip)
    have hcl : q[i].length = shape1 q := hc _ (List.getElem_mem hic)
    rw [List.length_drop, List.length_take, hpl, hcl]
    omega
  · intro i t hi ht
    have hic : i < q.length := by omega
    have hiz : i < (List.zipWith
        (fun pr nr => blendRow N (pr.drop (pr.length - N)) (nr.take N)) p q).length := by
      rw [List.length_zipWith, hpc, Nat.min_self]
      omega
    rw [List.getD_eq_getElem _ _ hiz, List.getElem_zipWith]
    have hpl : p[i].length = shape1 p := hp _ (List.getElem_mem hi)
    have hcl : q[i].length = shape1 q := hc _ (List.getElem_mem hic)
    rw [blendRow_getD _ _ _ _ (by rw [List.length_drop, hpl]; omega)
        (by rw [List.length_take, hcl]; omega) ht]
    rw [getD_drop _ _ _ _ (by rw [hpl]; omega),
      getD_take _ _ _ _ ht (by rw [hcl]; omega)]
    rw [List.getD_eq_getElem _ _ hi, List.getD_eq_getElem _ _ hic, hpl]
  · simp only [stepEmits, hgo]
  · intro r hr x hx
    simp only [clipArr, List.mem_map] at hr
    obtain ⟨r0, _, hr0⟩ := hr
    subst hr0
    simp only [List.mem_map] at hx
    obtain ⟨x0, _, hx0⟩ := hx
    subst hx0
    exact ⟨neg_one_le_clip1 x0, clip1_le_one x0⟩
  · have hlen : ∀ r ∈ (List.zipWith
        (fun pr nr => blendRow N (pr.drop (pr.length - N)) (nr.take N)) p q),
        r.length = N := by
      intro r hr
      rw [List.mem_iff_getElem] at hr
      obtain ⟨i, hi, hr⟩ := hr
      have hip : i < p.length := by
        rw [List.length_zipWith] at hi
        omega
      have hic : i < q.length := by omega
      subst hr
      rw [List.getElem_zipWith, blendRow_length]
      have hpl : p[i].length = shape1 p := hp _ (List.getElem_mem hip)
      have hcl : q[i].length = shape1 q := hc _ (List.getElem_mem hic)
      rw [List.length_drop, List.length_take, hpl, hcl]
      omega
    unfold regionByteLen clipArr
    rw [List.map_map]
    have : (List.map (List.length ∘ List.map clip1)
        (List.zipWith (fun pr nr => blendRow N (pr.drop (pr.length - N)) (nr.take N)) p q))
        = (List.zipWith (fun pr nr => blendRow N (pr.drop (pr.length - N)) (nr.take N)) p q).map
          List.length := by
      apply List.map_congr_left
      intro r _
      simp [Function.comp, List.length_map]
    rw [this, sum_const_of_mem _ N (by
      intro x hx
      rw [List.mem_map] at hx
      obtain ⟨r, hr, hxr⟩ := hx
      subst hxr
      exact hlen r hr)]
    rw [List.length_map, List.length_zipWith, hpc, Nat.min_self]

/-- Witness for C2 at `p = [[0, 1]]`, `c = [[1, 0]]`, `N = 1`. -/
theorem crossfade_blend_formula_witness :
    (1 ≤ 1 ∧ Rect [[(0 : ℚ), 1]] ∧ Rect [[(1 : ℚ), 0]] ∧
      ([[(0 : ℚ), 1]] : NpArr).length = ([[(1 : ℚ), 0]] : NpArr).length ∧
      1 ≤ shape1 [[(0 : ℚ), 1]] ∧ 1 ≤ shape1 [[(1 : ℚ), 0]]) ∧
    (∃ bl, crossfade_pcm (some [[(0 : ℚ), 1]]) [[(1 : ℚ), 0]] 1 =
        (some bl, ([[(1 : ℚ), 0]] : NpArr).map (fun r => r.drop 1)) ∧
      bl.length = ([[(0 : ℚ), 1]] : NpArr).length ∧
      (∀ r ∈ bl, r.length = 1) ∧
      (∀ i t, i < ([[(0 : ℚ), 1]] : NpArr).length → t < 1 →
        (bl.getD i []).getD t 0 =
          (([[(0 : ℚ), 1]] : NpArr).getD i []).getD (shape1 [[(0 : ℚ), 1]] - 1 + t) 0
              * (1 - (t : ℚ) / 1)
            + (([[(1 : ℚ), 0]] : NpArr).getD i []).getD t 0 * ((t : ℚ) / 1)) ∧
      stepEmits [[(0 : ℚ), 1]] [[(1 : ℚ), 0]] 1 =
        [clipArr bl,
          clipArr (holdBack (([[(1 : ℚ), 0]] : NpArr).map (fun r => r.drop 1)) 1)] ∧
      (∀ r ∈ clipArr bl, ∀ x ∈ r, -1 ≤ x ∧ x ≤ 1) ∧
      regionByteLen (clipArr bl) = 4 * (([[(0 : ℚ), 1]] : NpArr).length * 1)) :=
  ⟨⟨le_refl 1, by decide, by decide, by decide, by decide, by decide⟩,
    crossfade_blend_formula [[(0 : ℚ), 1]] [[(1 : ℚ), 0]] 1 (le_refl 1)
      (by decide) (by decide) (by decide) (by decide) (by decide)⟩

/-- C3: at a boundary where either buffer is shorter than the crossfade
length, `crossfade_pcm` skips the crossfade and passes the next buffer
through unchanged, the loop iteration emits just that (clipped, tail
held-back) buffer, and a streaming request whose engine calls all succeed
never fails, whatever the buffer shapes are. -/
theorem short_buffer_pass_through (p q : NpArr) (N : ℕ)
    (h : shape1 p < N ∨ shape1 q < N) :
    crossfade_pcm (some p) q N = (none, q) ∧
    stepEmits p q N = [clipArr (holdBack q N)] ∧
    ∀ (cfg : Config) (textLen sr counter0 : ℕ) (chunks : List NpArr),
      textLen ≤ cfg.MAX_TOTAL_LENGTH →
      (runStreamingRequest cfg true textLen sr (chunks.map Except.ok) counter0).httpError
        = none ∧
      (runStreamingRequest cfg true textLen sr (chunks.map Except.ok) counter0).trace.getLast?
        = some TTSStatus.COMPLETED := by
  have hskip := crossfade_pcm_skip p q N h
  refine ⟨hskip, ?_, ?_⟩
  · simp only [stepEmits, hskip]
  · intro cfg textLen sr counter0 chunks hlen
    have hok := streamLoop_ok_completes (fadeSamplesOf sr) chunks none 0
    have hmax : ¬cfg.MAX_TOTAL_LENGTH < textLen := by omega
    constructor
    · simp only [runStreamingRequest, Bool.not_true, if_neg, if_pos, hok]
      simp [hmax]
    · simp only [runStreamingRequest, Bool.not_true, if_neg, if_pos, hok]
      simp only [hmax, if_false, Bool.false_eq_true, ite_false]
      cases hmon : cfg.ENABLE_MEMORY_MONITORING <;> simp [hmon, hmax]

/-- Witness for C3 at `p = [[0]]`, `q = [[1]]`, `N = 2`. -/
theorem short_buffer_pass_through_witness :
    (shape1 [[(0 : ℚ)]] < 2 ∨ shape1 [[(1 : ℚ)]] < 2) ∧
    (crossfade_pcm (some [[(0 : ℚ)]]) [[(1 : ℚ)]] 2 = (none, [[(1 : ℚ)]]) ∧
      stepEmits [[(0 : ℚ)]] [[(1 : ℚ)]] 2 = [clipArr (holdBack [[(1 : ℚ)]] 2)] ∧
      ∀ (cfg : Config) (textLen sr counter0 : ℕ) (chunks : List NpArr),
        textLen ≤ cfg.MAX_TOTAL_LENGTH →
        (runStreamingRequest cfg true textLen sr (chunks.map Except.ok) counter0).httpError
          = none ∧
        (runStreamingRequest cfg true textLen sr (chunks.map Except.ok)
            counter0).trace.getLast? = some TTSStatus.COMPLETED) :=
  ⟨by decide, short_buffer_pass_through [[(0 : ℚ)]] [[(1 : ℚ)]] 2 (by decide)⟩

/-- C9: when the first buffer's length equals the crossfade length `N`
exactly, the whole buffer is emitted immediately (nothing held back), and
the next boundary's crossfade still applies, re-using the entire first
buffer as the previous tail, so those `N` samples are emitted a second time
inside the blended region. -/
theorem first_chunk_exact_fade_reemitted (N : ℕ) (c0 c1 : List ℚ)
    (hN : 1 ≤ N) (h0 : c0.length = N) (h1 : N ≤ c1.length) :
    streamEmits N [chan1 c0, chan1 c1] =
      [clipArr (chan1 c0),
        clipArr (chan1 (blendRow N c0 (c1.take N))),
        clipArr (holdBack (chan1 (c1.drop N)) N)] ∧
    tailN N c0 = c0 := by
  have htail : c0.drop (c0.length - N) = c0 := by
    rw [h0, Nat.sub_self, List.drop_zero]
  have hs0 : shape1 (chan1 c0) = N := by rw [shape1_chan1, h0]
  have hs1 : N ≤ shape1 (chan1 c1) := by rw [shape1_chan1]; omega
  have hgo := crossfade_pcm_go (chan1 c0) (chan1 c1) N (le_of_eq hs0.symm) hs1
  have hhb : holdBack (chan1 c0) N = chan1 c0 := by
    unfold holdBack
    rw [hs0, if_neg (lt_irrefl N)]
  constructor
  · simp only [streamEmits, streamTail, stepEmits, hgo]
    rw [hhb]
    simp only [chan1, List.zipWith_cons_cons, List.zipWith_nil_right,
      List.map_cons, List.map_nil, List.append_nil]
    rw [htail]
  · unfold tailN
    exact htail

/-- Witness for C9 at `N = 2`, `c0 = [1/2, -1/2]`, `c1 = [0, 1, 0]`. -/
theorem first_chunk_exact_fade_reemitted_witness :
    (1 ≤ 2 ∧ ([(1 : ℚ)/2, -1/2] : List ℚ).length = 2 ∧ 2 ≤ ([0, 1, 0] : List ℚ).length) ∧
    (streamEmits 2 [chan1 [(1 : ℚ)/2, -1/2], chan1 [0, 1, 0]] =
      [clipArr (chan1 [(1 : ℚ)/2, -1/2]),
        clipArr (chan1 (blendRow 2 [(1 : ℚ)/2, -1/2] (([0, 1, 0] : List ℚ).take 2))),
        clipArr (holdBack (chan1 (([0, 1, 0] : List ℚ).drop 2)) 2)] ∧
      tailN 2 [(1 : ℚ)/2, -1/2] = [(1 : ℚ)/2, -1/2]) :=
  ⟨⟨by decide, by decide, by decide⟩,
    first_chunk_exact_fade_reemitted 2 [(1 : ℚ)/2, -1/2] [0, 1, 0]
      (by decide) (by decide) (by decide)⟩

/-- Counterexample to C1: for two synthesized buffers `[1, 0, -1]` and
`[1/2, -1/2, 1/4]` with crossfade length 1, the emitted regions are
`[1, 0]`, the blend `[-1]`, and `[-1/2]`: the last buffer's final sample
`1/4` appears in no emitted region (its tail is trimmed and never flushed),
and only 4 of the 6 synthesized samples are emitted, not the 5 that
exactly-once emission with one blended boundary would give. -/
theorem last_tail_dropped_counterexample :
    streamEmits 1 [[[1, 0, -1]], [[(1 : ℚ)/2, -1/2, 1/4]]] =
      [[[1, 0]], [[-1]], [[-1/2]]] ∧
    (∀ reg ∈ streamEmits 1 [[[1, 0, -1]], [[(1 : ℚ)/2, -1/2, 1/4]]],
      ∀ row ∈ reg, (1/4 : ℚ) ∉ row) ∧
    emittedSampleCount (streamEmits 1 [[[1, 0, -1]], [[(1 : ℚ)/2, -1/2, 1/4]]]) = 4 := by
  have hval : streamEmits 1 [[[1, 0, -1]], [[(1 : ℚ)/2, -1/2, 1/4]]] =
      [[[1, 0]], [[-1]], [[-1/2]]] := by
    norm_num [streamEmits, streamTail, stepEmits, crossfade_pcm, shape1, holdBack,
      clipArr, clip1, blendRow, fade_out, fade_in, chan1, List.range_succ]
  refine ⟨hval, ?_, ?_⟩
  · rw [hval]
    norm_num [List.forall_mem_cons, List.mem_cons]
  · rw [hval]
    norm_num [emittedSampleCount]

theorem streamTail_characterization (N : ℕ) (hN : 1 ≤ N) :
    ∀ (rows : List (List ℚ)) (p : List ℚ), N ≤ p.length →
      (∀ r ∈ rows, 2 * N < r.length) →
      streamTail (chan1 p) N (rows.map chan1) = boundaryRegionsSpec N p rows := by
  intro rows
  induction rows with
  | nil =>
    intro p _ _
    rfl
  | cons c rest ih =>
    intro p hp hw
    have hc : 2 * N < c.length := hw c (by simp)
    have hgo := crossfade_pcm_go (chan1 p) (chan1 c) N
      (by rw [shape1_chan1]; omega) (by rw [shape1_chan1]; omega)
    have hhb : holdBack (chan1 (c.drop N)) N = chan1 ((c.drop N).take (c.length - 2 * N)) := by
      unfold holdBack
      rw [shape1_chan1, List.length_drop, if_pos (by omega)]
      simp only [chan1, List.map_cons, List.map_nil, List.length_drop]
      congr 2
      omega
    have hhb2 : holdBack [List.drop N c] N = [List.take (c.length - 2 * N) (List.drop N c)] := by
      simpa only [chan1] using hhb
    simp only [List.map_cons, streamTail, stepEmits, hgo, boundaryRegionsSpec]
    simp only [chan1, List.zipWith_cons_cons, List.zipWith_nil_right,
      List.map_cons, List.map_nil, hhb2]
    simp only [clipArr, clipRow, tailN, List.map_cons, List.map_nil,
      List.cons_append, List.nil_append]
    have ihc := ih c (by omega) (fun r hr => hw r (by simp [hr]))
    simp only [chan1] at ihc
    rw [ihc]

theorem boundaryRegionsSpec_count (N : ℕ) (hN : 1 ≤ N) :
    ∀ (rows : List (List ℚ)) (p : List ℚ), N ≤ p.length →
      (∀ r ∈ rows, 2 * N < r.length) →
      emittedSampleCount (boundaryRegionsSpec N p rows) =
        (rows.map List.length).sum - rows.length * N := by
  intro rows
  induction rows with
  | nil =>
    intro p _ _
    simp [boundaryRegionsSpec, emittedSampleCount]
  | cons c rest ih =>
    intro p hp hw
    have hc : 2 * N < c.length := hw c (by simp)
    have hrec := ih c (by omega) (fun r hr => hw r (by simp [hr]))
    have hlow := sum_len_lower rest N (fun r hr => by have := hw r (by simp [hr]); omega)
    simp only [boundaryRegionsSpec, emittedSampleCount, List.map_cons, List.sum_cons]
    simp only [emittedSampleCount] at hrec
    rw [hrec]
    simp only [clipRow, List.length_map, List.map_nil, List.sum_nil,
      List.map_cons, List.sum_cons, List.length_cons]
    rw [blendRow_length, tailN, List.length_drop, List.length_take,
      List.length_take, List.length_drop]
    have hm : (rest.length + 1) * N = rest.length * N + N := by ring
    omega

/-- C1 as amended: with at least two buffers, each longer than `2N` samples
(`N` = crossfade sample count), the first buffer's final `N` samples are
held back and blended at the next boundary, and every later buffer's
remainder likewise has its final `N` samples held back — including the very
last buffer, whose final `N` samples are therefore never emitted.  The
emitted regions are exactly the first buffer minus its tail followed by the
per-boundary blend-plus-trimmed-body regions, and the total emitted sample
count falls `N` short of emitting every synthesized sample exactly once
(boundaries aside). -/
theorem streaming_emission_characterization (N : ℕ) (r0 : List ℚ)
    (rest : List (List ℚ)) (hN : 1 ≤ N) (h2 : rest ≠ [])
    (hw : ∀ r ∈ r0 :: rest, 2 * N < r.length) :
    streamEmits N ((r0 :: rest).map chan1) =
      clipArr (chan1 (r0.take (r0.length - N))) :: boundaryRegionsSpec N r0 rest ∧
    emittedSampleCount (streamEmits N ((r0 :: rest).map chan1)) =
      ((r0 :: rest).map List.length).sum - (r0 :: rest).length * N := by
  have h0 : 2 * N < r0.length := hw r0 (by simp)
  have hwr : ∀ r ∈ rest, 2 * N < r.length := fun r hr => hw r (by simp [hr])
  have hhb : holdBack (chan1 r0) N = chan1 (r0.take (r0.length - N)) := by
    unfold holdBack
    rw [shape1_chan1, if_pos (by omega)]
    simp only [chan1, List.map_cons, List.map_nil]
  have hchar := streamTail_characterization N hN rest r0 (by omega) hwr
  have hmain : streamEmits N ((r0 :: rest).map chan1) =
      clipArr (chan1 (r0.take (r0.length - N))) :: boundaryRegionsSpec N r0 rest := by
    simp only [List.map_cons, streamEmits, hhb, hchar]
  refine ⟨hmain, ?_⟩
  rw [hmain]
  have hcnt := boundaryRegionsSpec_count N hN rest r0 (by omega) hwr
  have hlow := sum_len_lower rest N (fun r hr => by have := hwr r hr; omega)
  simp only [emittedSampleCount, List.map_cons, List.sum_cons, List.length_cons]
  simp only [emittedSampleCount] at hcnt
  rw [hcnt]
  simp only [clipArr, clipRow, chan1, List.map_cons, List.map_nil,
    List.length_map, List.sum_cons, List.sum_nil, List.length_take]
  have hm : (rest.length + 1) * N = rest.length * N + N := by ring
  omega

/-- Witness for the amended C1 at `N = 1`,
buffers `[1, 0, -1]` and `[1/2, -1/2, 1/4]`. -/
theorem streaming_emission_characterization_witness :
    (1 ≤ 1 ∧ ([[(1 : ℚ)/2, -1/2, 1/4]] : List (List ℚ)) ≠ [] ∧
      (∀ r ∈ ([1, 0, -1] : List ℚ) :: [[(1 : ℚ)/2, -1/2, 1/4]], 2 * 1 < r.length)) ∧
    (streamEmits 1 ((([1, 0, -1] : List ℚ) :: [[(1 : ℚ)/2, -1/2, 1/4]]).map chan1) =
      clipArr (chan1 (([1, 0, -1] : List ℚ).take (([1, 0, -1] : List ℚ).length - 1)))
        :: boundaryRegionsSpec 1 [1, 0, -1] [[(1 : ℚ)/2, -1/2, 1/4]] ∧
    emittedSampleCount
        (streamEmits 1 ((([1, 0, -1] : List ℚ) :: [[(1 : ℚ)/2, -1/2, 1/4]]).map chan1)) =
      ((([1, 0, -1] : List ℚ) :: [[(1 : ℚ)/2, -1/2, 1/4]]).map List.length).sum
        - (([1, 0, -1] : List ℚ) :: [[(1 : ℚ)/2, -1/2, 1/4]]).length * 1) :=
  ⟨⟨le_refl 1, by decide, by decide⟩,
    streaming_emission_characterization 1 [1, 0, -1] [[(1 : ℚ)/2, -1/2, 1/4]]
      (le_refl 1) (by decide) (by decide)⟩

/-- C4: when the engine raises on segment `k` (after `k - 1` successes), the
request's recorded status ends in `Error`, the request fails with a 500, the
regions already emitted for the successful prefix are exactly what remains
emitted (not retracted), and exactly `k` engine calls were made — none for
any later segment, whose bytes are never produced. -/
theorem engine_failure_mid_stream (cfg : Config) (textLen sr counter0 : ℕ)
    (oks : List NpArr) (rest : List (Except Unit NpArr))
    (hlen : textLen ≤ cfg.MAX_TOTAL_LENGTH) (hoks : oks ≠ []) :
    (runStreamingRequest cfg true textLen sr
        (oks.map Except.ok ++ Except.error () :: rest) counter0).trace.getLast?
      = some TTSStatus.ERROR ∧
    (runStreamingRequest cfg true textLen sr
        (oks.map Except.ok ++ Except.error () :: rest) counter0).httpError = some 500 ∧
    (runStreamingRequest cfg true textLen sr
        (oks.map Except.ok ++ Except.error () :: rest) counter0).regions
      = streamEmits (fadeSamplesOf sr) oks ∧
    (runStreamingRequest cfg true textLen sr
        (oks.map Except.ok ++ Except.error () :: rest) counter0).events.count
          Ev.engineCall = oks.length + 1 := by
  obtain ⟨hfail, hregs, hcnt⟩ :=
    streamLoop_error_run (fadeSamplesOf sr) rest oks none 0
  have hregs2 := streamLoop_regions (fadeSamplesOf sr) oks none 0
  have hmax : ¬cfg.MAX_TOTAL_LENGTH < textLen := by omega
  refine ⟨?_, ?_, ?_, ?_⟩
  · simp only [runStreamingRequest, Bool.not_true, if_false, hmax, ite_false, hfail]
    cases hmon : cfg.ENABLE_MEMORY_MONITORING <;> simp [hmon]
  · simp only [runStreamingRequest, Bool.not_true, if_false, hmax, ite_false, hfail]
    simp
  · have hregs3 : (streamLoop (fadeSamplesOf sr) none 0 (oks.map Except.ok)).1 =
        streamEmits (fadeSamplesOf sr) oks := by simpa using hregs2
    simp [runStreamingRequest, hmax, hregs, hregs3]
  · simp [runStreamingRequest, hmax, List.count_append, hcnt]
    by_cases hcl : (counter0 + 1) % cfg.MEMORY_CLEANUP_INTERVAL = 0 <;> simp [hcl]

/-- Witness for C4: one successful segment, then a failing one. -/
theorem engine_failure_mid_stream_witness :
    ((5 : ℕ) ≤ 100 ∧ ([[[(0 : ℚ), 1, 0]]] : List NpArr) ≠ []) ∧
    ((runStreamingRequest ⟨100, 7, false⟩ true 5 1000
        (([[[(0 : ℚ), 1, 0]]] : List NpArr).map Except.ok
          ++ Except.error () :: []) 0).trace.getLast? = some TTSStatus.ERROR ∧
    (runStreamingRequest ⟨100, 7, false⟩ true 5 1000
        (([[[(0 : ℚ), 1, 0]]] : List NpArr).map Except.ok
          ++ Except.error () :: []) 0).httpError = some 500 ∧
    (runStreamingRequest ⟨100, 7, false⟩ true 5 1000
        (([[[(0 : ℚ), 1, 0]]] : List NpArr).map Except.ok
          ++ Except.error () :: []) 0).regions
      = streamEmits (fadeSamplesOf 1000) [[[(0 : ℚ), 1, 0]]] ∧
    (runStreamingRequest ⟨100, 7, false⟩ true 5 1000
        (([[[(0 : ℚ), 1, 0]]] : List NpArr).map Except.ok
          ++ Except.error () :: []) 0).events.count Ev.engineCall
      = ([[[(0 : ℚ), 1, 0]]] : List NpArr).length + 1) :=
  ⟨⟨by decide, by decide⟩,
    engine_failure_mid_stream ⟨100, 7, false⟩ 5 1000 0 [[[(0 : ℚ), 1, 0]]] []
      (by decide) (by decide)⟩

/-- C5: an input longer than the configured maximum is rejected on both the
streaming and the complete-file path: the recorded status ends in `Error`,
HTTP 400 is raised, no engine call happens (no events at all), and no output
bytes — not even the WAV header — are produced. -/
theorem overlength_rejected_before_synthesis (cfg : Config)
    (textLen sr counter0 : ℕ) (segs : List (Except Unit NpArr))
    (segs2 : List (Except Unit Unit)) (h : cfg.MAX_TOTAL_LENGTH < textLen) :
    (runStreamingRequest cfg true textLen sr segs counter0).httpError = some 400 ∧
    (runStreamingRequest cfg true textLen sr segs counter0).headerBytes = [] ∧
    (runStreamingRequest cfg true textLen sr segs counter0).regions = [] ∧
    (runStreamingRequest cfg true textLen sr segs counter0).events = [] ∧
    (runStreamingRequest cfg true textLen sr segs counter0).trace.getLast?
      = some TTSStatus.ERROR ∧
    (runInternalRequest cfg true textLen segs2 counter0).httpError = some 400 ∧
    (runInternalRequest cfg true textLen segs2 counter0).producedBuffer = false ∧
    (runInternalRequest cfg true textLen segs2 counter0).events = [] ∧
    (runInternalRequest cfg true textLen segs2 counter0).trace.getLast?
      = some TTSStatus.ERROR := by
  refine ⟨?_, ?_, ?_, ?_, ?_, ?_, ?_, ?_, ?_⟩ <;>
    simp only [runStreamingRequest, runInternalRequest, Bool.not_true, if_false,
      ite_false, if_pos h] <;>
    cases hmon : cfg.ENABLE_MEMORY_MONITORING <;> simp [hmon]

/-- Witness for C5 with `MAX_TOTAL_LENGTH = 10` and a length-11 text. -/
theorem overlength_rejected_before_synthesis_witness :
    ((10 : ℕ) < 11) ∧
    ((runStreamingRequest ⟨10, 5, false⟩ true 11 24000 [] 0).httpError = some 400 ∧
    (runStreamingRequest ⟨10, 5, false⟩ true 11 24000 [] 0).headerBytes = [] ∧
    (runStreamingRequest ⟨10, 5, false⟩ true 11 24000 [] 0).regions = [] ∧
    (runStreamingRequest ⟨10, 5, false⟩ true 11 24000 [] 0).events = [] ∧
    (runStreamingRequest ⟨10, 5, false⟩ true 11 24000 [] 0).trace.getLast?
      = some TTSStatus.ERROR ∧
    (runInternalRequest ⟨10, 5, false⟩ true 11 [] 0).httpError = some 400 ∧
    (runInternalRequest ⟨10, 5, false⟩ true 11 [] 0).producedBuffer = false ∧
    (runInternalRequest ⟨10, 5, false⟩ true 11 [] 0).events = [] ∧
    (runInternalRequest ⟨10, 5, false⟩ true 11 [] 0).trace.getLast?
      = some TTSStatus.ERROR) :=
  ⟨by decide,
    overlength_rejected_before_synthesis ⟨10, 5, false⟩ 11 24000 0 [] [] (by decide)⟩

/-! ## WAV header lemmas -/

theorem bytesLE_length : ∀ (k n : ℕ), (bytesLE k n).length = k := by
  intro k
  induction k with
  | zero => intro n; rfl
  | succ k ih => intro n; simp [bytesLE, ih]

theorem decodeLE_bytesLE : ∀ (k n : ℕ), decodeLE (bytesLE k n) = n % 256 ^ k := by
  intro k
  induction k with
  | zero => intro n; simp [bytesLE, decodeLE, Nat.mod_one]
  | succ k ih =>
    intro n
    have hpow : (256 : ℕ) ^ (k + 1) = 256 * 256 ^ k := by ring
    simp only [bytesLE, decodeLE, ih, hpow, Nat.mod_mul]

theorem readLE_extract (pre mid suf : List ℕ) (off k : ℕ)
    (hpre : pre.length = off) (hmid : mid.length = k) :
    readLE (pre ++ (mid ++ suf)) off k = decodeLE mid := by
  unfold readLE
  rw [← hpre, List.drop_left, ← hmid, List.take_left]

theorem wavHeader44_length (ch sr bits dl : ℕ) :
    (wavHeader44 ch sr bits dl).length = 44 := by
  simp [wavHeader44, bytesLE_length]

theorem wavHeader44_channels (ch sr bits dl : ℕ) :
    readLE (wavHeader44 ch sr bits dl) 22 2 = ch % 256 ^ 2 := by
  have h : wavHeader44 ch sr bits dl =
      (([82, 73, 70, 70] : List ℕ) ++ bytesLE 4 (36 + dl) ++ [87, 65, 86, 69]
          ++ [102, 109, 116, 32] ++ bytesLE 4 16 ++ bytesLE 2 3)
        ++ (bytesLE 2 ch
          ++ (bytesLE 4 sr ++ bytesLE 4 (sr * (ch * bits / 8))
            ++ bytesLE 2 (ch * bits / 8) ++ bytesLE 2 bits
            ++ [100, 97, 116, 97] ++ bytesLE 4 dl)) := by
    simp [wavHeader44, List.append_assoc]
  rw [h, readLE_extract _ _ _ _ _ (by simp [bytesLE_length]) (bytesLE_length 2 ch),
    decodeLE_bytesLE]

theorem wavHeader44_rate (ch sr bits dl : ℕ) :
    readLE (wavHeader44 ch sr bits dl) 24 4 = sr % 256 ^ 4 := by
  have h : wavHeader44 ch sr bits dl =
      (([82, 73, 70, 70] : List ℕ) ++ bytesLE 4 (36 + dl) ++ [87, 65, 86, 69]
          ++ [102, 109, 116, 32] ++ bytesLE 4 16 ++ bytesLE 2 3 ++ bytesLE 2 ch)
        ++ (bytesLE 4 sr
          ++ (bytesLE 4 (sr * (ch * bits / 8))
            ++ bytesLE 2 (ch * bits / 8) ++ bytesLE 2 bits
            ++ [100, 97, 116, 97] ++ bytesLE 4 dl)) := by
    simp [wavHeader44, List.append_assoc]
  rw [h, readLE_extract _ _ _ _ _ (by simp [bytesLE_length]) (bytesLE_length 4 sr),
    decodeLE_bytesLE]

theorem wavHeader44_bits (ch sr bits dl : ℕ) :
    readLE (wavHeader44 ch sr bits dl) 34 2 = bits % 256 ^ 2 := by
  have h : wavHeader44 ch sr bits dl =
      (([82, 73, 70, 70] : List ℕ) ++ bytesLE 4 (36 + dl) ++ [87, 65, 86, 69]
          ++ [102, 109, 116, 32] ++ bytesLE 4 16 ++ bytesLE 2 3 ++ bytesLE 2 ch
          ++ bytesLE 4 sr ++ bytesLE 4 (sr * (ch * bits / 8))
          ++ bytesLE 2 (ch * bits / 8))
        ++ (bytesLE 2 bits ++ ([100, 97, 116, 97] ++ bytesLE 4 dl)) := by
    simp [wavHeader44, List.append_assoc]
  rw [h, readLE_extract _ _ _ _ _ (by simp [bytesLE_length]) (bytesLE_length 2 bits),
    decodeLE_bytesLE]

theorem wavHeader44_tag (ch sr bits dl : ℕ) :
    readLE (wavHeader44 ch sr bits dl) 20 2 = 3 := by
  have h : wavHeader44 ch sr bits dl =
      (([82, 73, 70, 70] : List ℕ) ++ bytesLE 4 (36 + dl) ++ [87, 65, 86, 69]
          ++ [102, 109, 116, 32] ++ bytesLE 4 16)
        ++ (bytesLE 2 3
          ++ (bytesLE 2 ch ++ bytesLE 4 sr ++ bytesLE 4 (sr * (ch * bits / 8))
            ++ bytesLE 2 (ch * bits / 8) ++ bytesLE 2 bits
            ++ [100, 97, 116, 97] ++ bytesLE 4 dl)) := by
    simp [wavHeader44, List.append_assoc]
  rw [h, readLE_extract _ _ _ _ _ (by simp [bytesLE_length]) (bytesLE_length 2 3),
    decodeLE_bytesLE]
  norm_num

theorem wavHeader44_riffSize (ch sr bits dl : ℕ) :
    readLE (wavHeader44 ch sr bits dl) 4 4 = (36 + dl) % 256 ^ 4 := by
  have h : wavHeader44 ch sr bits dl =
      ([82, 73, 70, 70] : List ℕ)
        ++ (bytesLE 4 (36 + dl)
          ++ ([87, 65, 86, 69] ++ [102, 109, 116, 32] ++ bytesLE 4 16 ++ bytesLE 2 3
            ++ bytesLE 2 ch ++ bytesLE 4 sr ++ bytesLE 4 (sr * (ch * bits / 8))
            ++ bytesLE 2 (ch * bits / 8) ++ bytesLE 2 bits
            ++ [100, 97, 116, 97] ++ bytesLE 4 dl)) := by
    simp [wavHeader44, List.append_assoc]
  rw [h, readLE_extract _ _ _ _ _ (by simp) (bytesLE_length 4 (36 + dl)),
    decodeLE_bytesLE]

theorem wavHeader44_dataSize (ch sr bits dl : ℕ) :
    readLE (wavHeader44 ch sr bits dl) 40 4 = dl % 256 ^ 4 := by
  have h : wavHeader44 ch sr bits dl =
      (([82, 73, 70, 70] : List ℕ) ++ bytesLE 4 (36 + dl) ++ [87, 65, 86, 69]
          ++ [102, 109, 116, 32] ++ bytesLE 4 16 ++ bytesLE 2 3 ++ bytesLE 2 ch
          ++ bytesLE 4 sr ++ bytesLE 4 (sr * (ch * bits / 8))
          ++ bytesLE 2 (ch * bits / 8) ++ bytesLE 2 bits ++ [100, 97, 116, 97])
        ++ (bytesLE 4 dl ++ []) := by
    simp [wavHeader44, List.append_assoc]
  rw [h, readLE_extract _ _ _ _ _ (by simp [bytesLE_length]) (bytesLE_length 4 dl),
    decodeLE_bytesLE]

/-- C6: the streaming response's header is exactly 44 bytes, emitted before
any PCM region; parsed with the standard WAV layout
(`parse_wav_header` of the client example) it reports 1 channel, the
model's declared sample rate, 32 bits per sample and float format tag 3 —
the geometry the pipeline uses for all subsequent payloads — while the
RIFF-size and data-size fields hold the one-second placeholder values
(`36 + 4·sr` and `4·sr`), independent of the actual segments streamed
rather than the true stream length. -/
theorem streaming_header_layout (cfg : Config) (textLen sr counter0 : ℕ)
    (segs : List (Except Unit NpArr)) (hlen : textLen ≤ cfg.MAX_TOTAL_LENGTH)
    (hsr : sr < 2 ^ 28) :
    (runStreamingRequest cfg true textLen sr segs counter0).headerBytes.length = 44 ∧
    parse_wav_header (runStreamingRequest cfg true textLen sr segs counter0).headerBytes
      = some (1, sr, 32, 3) ∧
    readLE (runStreamingRequest cfg true textLen sr segs counter0).headerBytes 4 4
      = 36 + 4 * sr ∧
    readLE (runStreamingRequest cfg true textLen sr segs counter0).headerBytes 40 4
      = 4 * sr ∧
    ∀ segs2, (runStreamingRequest cfg true textLen sr segs2 counter0).headerBytes
      = (runStreamingRequest cfg true textLen sr segs counter0).headerBytes := by
  have hmax : ¬cfg.MAX_TOTAL_LENGTH < textLen := by omega
  have hhdr : ∀ s, (runStreamingRequest cfg true textLen sr s counter0).headerBytes
      = wavHeader44 1 sr 32 (sr * 4) := by
    intro s
    simp [runStreamingRequest, hmax]
  refine ⟨?_, ?_, ?_, ?_, ?_⟩
  · rw [hhdr, wavHeader44_length]
  · rw [hhdr]
    unfold parse_wav_header
    rw [if_neg (by rw [wavHeader44_length]; omega)]
    rw [wavHeader44_channels, wavHeader44_rate, wavHeader44_bits, wavHeader44_tag]
    have h1 : 1 % 256 ^ 2 = 1 := by norm_num
    have h2 : sr % 256 ^ 4 = sr := Nat.mod_eq_of_lt (by
      have : (2 : ℕ) ^ 28 < 256 ^ 4 := by norm_num
      omega)
    have h3 : 32 % 256 ^ 2 = 32 := by norm_num
    rw [h1, h2, h3]
  · rw [hhdr, wavHeader44_riffSize]
    have : 36 + sr * 4 < 256 ^ 4 := by
      have : (2 : ℕ) ^ 28 * 4 + 36 < 256 ^ 4 := by norm_num
      omega
    rw [Nat.mod_eq_of_lt this]
    omega
  · rw [hhdr, wavHeader44_dataSize]
    have : sr * 4 < 256 ^ 4 := by
      have : (2 : ℕ) ^ 28 * 4 < 256 ^ 4 := by norm_num
      omega
    rw [Nat.mod_eq_of_lt this]
    omega
  · intro segs2
    rw [hhdr, hhdr]

/-- Witness for C6 at `sr = 24000`. -/
theorem streaming_header_layout_witness :
    ((5 : ℕ) ≤ 100 ∧ (24000 : ℕ) < 2 ^ 28) ∧
    ((runStreamingRequest ⟨100, 5, false⟩ true 5 24000 [] 0).headerBytes.length = 44 ∧
    parse_wav_header (runStreamingRequest ⟨100, 5, false⟩ true 5 24000 [] 0).headerBytes
      = some (1, 24000, 32, 3) ∧
    readLE (runStreamingRequest ⟨100, 5, false⟩ true 5 24000 [] 0).headerBytes 4 4
      = 36 + 4 * 24000 ∧
    readLE (runStreamingRequest ⟨100, 5, false⟩ true 5 24000 [] 0).headerBytes 40 4
      = 4 * 24000 ∧
    ∀ segs2, (runStreamingRequest ⟨100, 5, false⟩ true 5 24000 segs2 0).headerBytes
      = (runStreamingRequest ⟨100, 5, false⟩ true 5 24000 [] 0).headerBytes) :=
  ⟨⟨by decide, by decide⟩,
    streaming_header_layout ⟨100, 5, false⟩ 5 24000 0 [] (by decide) (by decide)⟩

/-! ## Lifecycle trace lemmas -/

theorem chain'_gen_block (ts suf : List TTSStatus)
    (hts : ∀ s ∈ ts, s = TTSStatus.GENERATING)
    (hsuf : List.Chain' stepOk (TTSStatus.GENERATING :: suf)) :
    List.Chain' stepOk (TTSStatus.GENERATING :: (ts ++ suf)) := by
  induction ts with
  | nil => exact hsuf
  | cons a t ih =>
    have ha : a = TTSStatus.GENERATING := hts a (by simp)
    subst ha
    have ht : ∀ s ∈ t, s = TTSStatus.GENERATING :=
      fun s hs => hts s (by simp [hs])
    rw [List.cons_append]
    exact List.chain'_cons.mpr ⟨by decide, ih ht⟩

/-- C7: every status trace either request path records follows the linear
lifecycle machine: statuses only move forward through
`Initializing → ProcessingText → Chunking → GeneratingAudio →
Concatenating → Finalizing → Completed` (repeats allowed for progress
updates within a stage), `Error` may follow any non-terminal status, and no
status whatsoever is recorded after `Completed` or `Error`. -/
theorem lifecycle_traces_linear (cfg : Config) (modelLoaded : Bool)
    (textLen sr counter0 : ℕ) (segs : List (Except Unit NpArr))
    (segs2 : List (Except Unit Unit)) :
    ValidTrace (runStreamingRequest cfg modelLoaded textLen sr segs counter0).trace ∧
    ValidTrace (runInternalRequest cfg modelLoaded textLen segs2 counter0).trace := by
  unfold ValidTrace
  constructor
  · cases modelLoaded with
    | false => simp only [runStreamingRequest]; simp; decide
    | true =>
      by_cases hmax : cfg.MAX_TOTAL_LENGTH < textLen
      · simp only [runStreamingRequest, Bool.not_true, if_false, ite_false, if_pos hmax]
        cases hmon : cfg.ENABLE_MEMORY_MONITORING <;> simp [hmon] <;> decide
      · simp only [runStreamingRequest, Bool.not_true, if_false, ite_false, if_neg hmax]
        cases hok : (streamLoop (fadeSamplesOf sr) none 0 segs).2.2 <;>
          cases hmon : cfg.ENABLE_MEMORY_MONITORING <;>
            simp [hmon, hok] <;> decide
  · cases modelLoaded with
    | false => simp only [runInternalRequest]; simp; decide
    | true =>
      by_cases hmax : cfg.MAX_TOTAL_LENGTH < textLen
      · simp only [runInternalRequest, Bool.not_true, if_false, ite_false, if_pos hmax]
        cases hmon : cfg.ENABLE_MEMORY_MONITORING <;> simp [hmon] <;> decide
      · simp only [runInternalRequest, Bool.not_true, if_false, ite_false, if_neg hmax]
        rcases segs2 with _ | ⟨s0, srest⟩
        · cases hmon : cfg.ENABLE_MEMORY_MONITORING <;>
            simp [hmon, internalLoop] <;> decide
        · have hts := internalLoop_statuses (s0 :: srest) 0
          cases hok : (internalLoop 0 (s0 :: srest)).2.2 <;>
            by_cases hlen1 : 0 < srest.length <;>
            cases hmon : cfg.ENABLE_MEMORY_MONITORING <;>
            simp [hmon, hok, hlen1, List.append_assoc] <;>
            (repeat' refine And.intro (by decide) ?_) <;>
            exact chain'_gen_block _ _ hts (by simp [List.chain'_cons] <;> decide)

/-- Counterexample to C8: with cleanup interval `K = 5`, the 5th request
(`5 mod 5 = 0`) rejected for over-length text (max 10, length 11) finishes
without ever invoking `cleanup_memory` — the `finally` block holding the
periodic cleanup is reached only when the main `try` body is entered, and
the over-length rejection happens before it. -/
theorem cleanup_skipped_on_early_reject_counterexample :
    (runStreamingRequest ⟨10, 5, false⟩ true 11 24000 [] 4).counter % 5 = 0 ∧
    (runStreamingRequest ⟨10, 5, false⟩ true 11 24000 [] 4).cleanupCalled = false ∧
    (runStreamingRequest ⟨10, 5, false⟩ true 11 24000 [] 4).events.count
      Ev.cleanupMemory = 0 ∧
    (runInternalRequest ⟨10, 5, false⟩ true 11 [] 4).counter % 5 = 0 ∧
    (runInternalRequest ⟨10, 5, false⟩ true 11 [] 4).cleanupCalled = false ∧
    (runInternalRequest ⟨10, 5, false⟩ true 11 [] 4).events.count
      Ev.cleanupMemory = 0 := by
  refine ⟨?_, ?_, ?_, ?_, ?_, ?_⟩ <;> simp [runStreamingRequest, runInternalRequest]

/-- C8 as amended: `cleanup_memory` never runs inside the segment loop —
at most one cleanup event occurs per request and, when it occurs, it is the
very last event; for requests that pass the pre-checks (model loaded, text
within the maximum) it runs exactly when the request counter `n` satisfies
`n mod K = 0`; requests rejected before the main `try` body (model missing
or over-length text) never trigger it, even when `n mod K = 0`. -/
theorem cleanup_cadence_amended (cfg : Config) (modelLoaded : Bool)
    (textLen sr counter0 : ℕ) (segs : List (Except Unit NpArr))
    (segs2 : List (Except Unit Unit)) (hK : 0 < cfg.MEMORY_CLEANUP_INTERVAL) :
    (modelLoaded = true → textLen ≤ cfg.MAX_TOTAL_LENGTH →
      (((runStreamingRequest cfg modelLoaded textLen sr segs counter0).cleanupCalled
          = true ↔ (counter0 + 1) % cfg.MEMORY_CLEANUP_INTERVAL = 0) ∧
        ((runInternalRequest cfg modelLoaded textLen segs2 counter0).cleanupCalled
          = true ↔ (counter0 + 1) % cfg.MEMORY_CLEANUP_INTERVAL = 0))) ∧
    (modelLoaded = false ∨ cfg.MAX_TOTAL_LENGTH < textLen →
      ((runStreamingRequest cfg modelLoaded textLen sr segs counter0).cleanupCalled
          = false ∧
        (runInternalRequest cfg modelLoaded textLen segs2 counter0).cleanupCalled
          = false)) ∧
    ((runStreamingRequest cfg modelLoaded textLen sr segs counter0).events.count
        Ev.cleanupMemory ≤ 1 ∧
      (Ev.cleanupMemory ∈ (runStreamingRequest cfg modelLoaded textLen sr segs
          counter0).events →
        (runStreamingRequest cfg modelLoaded textLen sr segs counter0).events.getLast?
          = some Ev.cleanupMemory)) ∧
    ((runInternalRequest cfg modelLoaded textLen segs2 counter0).events.count
        Ev.cleanupMemory ≤ 1 ∧
      (Ev.cleanupMemory ∈ (runInternalRequest cfg modelLoaded textLen segs2
          counter0).events →
        (runInternalRequest cfg modelLoaded textLen segs2 counter0).events.getLast?
          = some Ev.cleanupMemory)) := by
  have hs := streamLoop_no_cleanup (fadeSamplesOf sr) segs none 0
  have hi := internalLoop_no_cleanup segs2 0
  have hscount : ((streamLoop (fadeSamplesOf sr) none 0 segs).2.1).count
      Ev.cleanupMemory = 0 := List.count_eq_zero.mpr hs
  have hicount : ((internalLoop 0 segs2).2.1).count Ev.cleanupMemory = 0 :=
    List.count_eq_zero.mpr hi
  refine ⟨?_, ?_, ?_, ?_⟩
  · intro hml hlen
    subst hml
    have hmax : ¬cfg.MAX_TOTAL_LENGTH < textLen := by omega
    constructor
    · simp [runStreamingRequest, hmax]
    · cases hok : (internalLoop 0 segs2).2.2 <;>
        by_cases hemp : segs2.isEmpty <;>
        simp [runInternalRequest, hmax, hok, hemp]
  · intro hrej
    cases hrej with
    | inl hml => subst hml; simp [runStreamingRequest, runInternalRequest]
    | inr hmax => cases modelLoaded <;>
        simp [runStreamingRequest, runInternalRequest, hmax]
  · cases modelLoaded with
    | false =>
      simp [runStreamingRequest]
    | true =>
      by_cases hmax : cfg.MAX_TOTAL_LENGTH < textLen
      · simp [runStreamingRequest, hmax]
      · by_cases hcl : (counter0 + 1) % cfg.MEMORY_CLEANUP_INTERVAL = 0 <;>
          simp [runStreamingRequest, hmax, hcl, List.count_append, hscount,
            List.getLast?_append, hs]
  · cases modelLoaded with
    | false =>
      simp [runInternalRequest]
    | true =>
      by_cases hmax : cfg.MAX_TOTAL_LENGTH < textLen
      · simp [runInternalRequest, hmax]
      · by_cases hcl : (counter0 + 1) % cfg.MEMORY_CLEANUP_INTERVAL = 0 <;>
          cases hok : (internalLoop 0 segs2).2.2 <;>
          by_cases hemp : segs2.isEmpty <;>
          simp [runInternalRequest, hmax, hcl, hok, hemp, List.count_append,
            hicount, List.getLast?_append, hi]

/-- Witness for the amended C8 with `K = 5`, a passing and a rejected
configuration both covered by the conjuncts. -/
theorem cleanup_cadence_amended_witness :
    (0 < 5) ∧
    ((true = true → (5 : ℕ) ≤ 100 →
      (((runStreamingRequest ⟨100, 5, false⟩ true 5 24000 [] 4).cleanupCalled
          = true ↔ (4 + 1) % 5 = 0) ∧
        ((runInternalRequest ⟨100, 5, false⟩ true 5 [] 4).cleanupCalled
          = true ↔ (4 + 1) % 5 = 0))) ∧
    (true = false ∨ (100 : ℕ) < 5 →
      ((runStreamingRequest ⟨100, 5, false⟩ true 5 24000 [] 4).cleanupCalled = false ∧
        (runInternalRequest ⟨100, 5, false⟩ true 5 [] 4).cleanupCalled = false)) ∧
    ((runStreamingRequest ⟨100, 5, false⟩ true 5 24000 [] 4).events.count
        Ev.cleanupMemory ≤ 1 ∧
      (Ev.cleanupMemory ∈ (runStreamingRequest ⟨100, 5, false⟩ true 5 24000 [] 4).events →
        (runStreamingRequest ⟨100, 5, false⟩ true 5 24000 [] 4).events.getLast?
          = some Ev.cleanupMemory)) ∧
    ((runInternalRequest ⟨100, 5, false⟩ true 5 [] 4).events.count
        Ev.cleanupMemory ≤ 1 ∧
      (Ev.cleanupMemory ∈ (runInternalRequest ⟨100, 5, false⟩ true 5 [] 4).events →
        (runInternalRequest ⟨100, 5, false⟩ true 5 [] 4).events.getLast?
          = some Ev.cleanupMemory))) :=
  ⟨by decide,
    cleanup_cadence_amended ⟨100, 5, false⟩ true 5 24000 4 [] [] (by decide)⟩

/-- C10: uploaded-voice validation raises HTTP 400 exactly when the
filename is missing (absent or empty), or the lower-cased filename's
extension under `os.path.splitext` is not one of the supported audio
formats, or the reported size exceeds `25 * 1024 * 1024` bytes; every file
meeting all three conditions passes with no change. -/
theorem upload_validation_iff (f : UploadFile) :
    (validate_audio_file f = Except.error 400 ↔
      (f.filename = none ∨ f.filename = some "" ∨
        String.mk (splitextExt ((f.filename.getD "").toList.map Char.toLower))
          ∉ SUPPORTED_AUDIO_FORMATS ∨
        25 * 1024 * 1024 < f.size.getD 0)) ∧
    (validate_audio_file f = Except.ok () ↔
      ¬(f.filename = none ∨ f.filename = some "" ∨
        String.mk (splitextExt ((f.filename.getD "").toList.map Char.toLower))
          ∉ SUPPORTED_AUDIO_FORMATS ∨
        25 * 1024 * 1024 < f.size.getD 0)) := by
  obtain ⟨fn, sz⟩ := f
  cases fn with
  | none => simp [validate_audio_file]
  | some name =>
    by_cases hempty : name = ""
    · subst hempty
      simp [validate_audio_file]
    · by_cases hext : String.mk (splitextExt (name.data.map Char.toLower))
          ∈ SUPPORTED_AUDIO_FORMATS
      · cases sz with
        | none => simp [validate_audio_file, hempty, hext]
        | some s =>
          by_cases hs : 25 * 1024 * 1024 < s <;>
            simp [validate_audio_file, hempty, hext, hs]
      · cases sz with
        | none => simp [validate_audio_file, hempty, hext]
        | some s => simp [validate_audio_file, hempty, hext]

end Chatterbox
